import Mathlib

/-
Verification of the task-to-text synchronization core of a kanban task
plugin.  The core reads a plain-text document, splits it into lines,
patches one line (replace, delete or append) and writes the whole
content back.  Documents are modelled as their character contents
(`List Char`), a document store as a map from file handles to contents,
and the dispatcher state as the two identity-keyed maps (tasks and
metadata) described in the design.
-/

namespace KanbanSync

/-- A JS string's contents: a sequence of characters.  One element of the
split row sequence is one line. -/
abbrev Line := List Char

/-- Embeds `file.split("\n")` from `updateRow`: split the document content
on the newline character.  Like the JS `split`, the result is never empty
(`"".split("\n")` is `[""]`, and `List.splitOn '\n' []` is `[[]]`). -/
def splitLines (file : List Char) : List Line := file.splitOn '\n'

/-- Embeds `rows.join("\n")` from `updateRow`: rejoin the row sequence with
newline separators. -/
def joinLines (rows : List Line) : List Char := List.intercalate ['\n'] rows

/-- Embeds the JS assignment `rows[row] = newText`: in-bounds indices are
replaced, and index `rows.length` extends the array by one element.
`updateRow`'s guard ensures `row ≤ rows.length` at its call site. -/
def setRow (rows : List Line) (row : Nat) (t : Line) : List Line :=
  if row < rows.length then rows.set row t else rows ++ [t]

/-- Embeds the row-patching logic of `updateRow` on the split row
sequence: an absent `row` defaults to `rows.length` (append), the guard
`rows.length < row` aborts with no write (`none`), empty `newText` splices
the target row out, and otherwise the target row is assigned.  A `some`
result means `vault.modify` is invoked with the rejoined content. -/
def updateRowCore (rows : List Line) (row : Option Nat) (newText : Line) :
    Option (List Line) :=
  let r := row.getD rows.length
  if rows.length < r then none
  else if newText = [] then some (rows.eraseIdx r)
  else some (setRow rows r newText)

/-- The whole `updateRow` body at the document-content level: split the
content read from the store, patch, rejoin.  `none` means the stale-position
guard aborted and no write occurs; `some w` means content `w` is written. -/
def updateRow (file : List Char) (row : Option Nat) (newText : Line) :
    Option (List Char) :=
  (updateRowCore (splitLines file) row newText).map joinLines

/-- The document content after one `updateRow` call: the written content,
or the unchanged previous content when the guard aborted. -/
def applyUpdateRow (file : List Char) (row : Option Nat) (newText : Line) :
    List Char :=
  (updateRow file row newText).getD file

/-- The document store (`vault`): contents indexed by file handle. -/
def Store := Nat → List Char

/-- The store-level side effects of one `updateRow` call: `read h` for
`vault.read(fileHandle)` and `modifyEv h w` for `vault.modify(fileHandle, w)`. -/
inductive VaultEvent where
  | read (h : Nat)
  | modifyEv (h : Nat) (content : List Char)
  deriving DecidableEq

/-- Embeds `updateRow` as acting on the document store, together with the
trace of store operations it performs: always exactly one read, and one
write exactly when the patch is not aborted. -/
def updateRowEff (store : Store) (h : Nat) (row : Option Nat) (newText : Line) :
    Store × List VaultEvent :=
  match updateRowCore (splitLines (store h)) row newText with
  | none => (store, [VaultEvent.read h])
  | some rows2 =>
      (fun k => if k = h then joinLines rows2 else store k,
       [VaultEvent.read h, VaultEvent.modifyEv h (joinLines rows2)])

/-- C10: `updateRow` with an absent row index and empty text still performs
a write, and the written content is identical to the document: the default
target index is the line count, the guard passes, and `splice(length, 1)`
removes nothing, so the rejoined content equals the original. -/
theorem updateRow_absent_row_empty_text_rewrites_same (file : List Char) :
    updateRow file none [] = some file := by
  have hcore : updateRowCore (splitLines file) none [] = some (splitLines file) := by
    simp [updateRowCore, List.eraseIdx_of_length_le (Nat.le_refl _)]
  simp only [updateRow, hcore, Option.map_some]
  simp [joinLines, splitLines, List.intercalate_splitOn]

/-- C2: for an in-bounds row index and nonempty text, `updateRow` writes
back the row sequence with exactly that row replaced: same length, the
target row now holds the new text, and every other row is unchanged. -/
theorem updateRow_replace (rows : List Line) (r : Nat) (t : Line)
    (hr : r < rows.length) (ht : t ≠ []) :
    updateRowCore rows (some r) t = some (rows.set r t) ∧
    (rows.set r t).length = rows.length ∧
    (rows.set r t)[r]? = some t ∧
    ∀ i, i ≠ r → (rows.set r t)[i]? = rows[i]? := by
  refine ⟨?_, List.length_set .., List.getElem?_set_self hr,
    fun i hi => List.getElem?_set_ne (Ne.symm hi)⟩
  simp [updateRowCore, setRow, Nat.lt_asymm hr, ht, hr]

theorem updateRow_replace_witness :
    1 < ([['a'], ['c']] : List Line).length ∧ (['b'] : Line) ≠ [] ∧
    updateRowCore [['a'], ['c']] (some 1) ['b'] = some [['a'], ['b']] :=
  ⟨by decide, by decide,
    (updateRow_replace [['a'], ['c']] 1 ['b'] (by decide) (by decide)).1⟩

/-- C3: for an in-bounds row index and empty text, `updateRow` writes back
the row sequence with the target row removed (not blanked): the length
drops by exactly one, rows before the target keep their positions, and
rows after it shift down by one. -/
theorem updateRow_delete (rows : List Line) (r : Nat) (hr : r < rows.length) :
    updateRowCore rows (some r) [] = some (rows.eraseIdx r) ∧
    (rows.eraseIdx r).length + 1 = rows.length ∧
    (∀ i, i < r → (rows.eraseIdx r)[i]? = rows[i]?) ∧
    (∀ i, r ≤ i → (rows.eraseIdx r)[i]? = rows[i + 1]?) := by
  refine ⟨?_, List.length_eraseIdx_add_one hr, fun i hi => ?_, fun i hi => ?_⟩
  · simp [updateRowCore, Nat.lt_asymm hr]
  · rw [List.getElem?_eraseIdx, if_pos hi]
  · rw [List.getElem?_eraseIdx, if_neg (Nat.not_lt.mpr hi)]

theorem updateRow_delete_witness :
    0 < ([['a'], ['c']] : List Line).length ∧
    updateRowCore [['a'], ['c']] (some 0) [] = some [['c']] :=
  ⟨by decide, (updateRow_delete [['a'], ['c']] 0 (by decide)).1⟩

/-- C4: with the row index absent and nonempty text, `updateRow` writes back
the row sequence with the text appended as a new final row: the length grows
by exactly one and every existing row is unchanged. -/
theorem updateRow_append (rows : List Line) (t : Line) (ht : t ≠ []) :
    updateRowCore rows none t = some (rows ++ [t]) ∧
    (rows ++ [t]).length = rows.length + 1 ∧
    (rows ++ [t])[rows.length]? = some t ∧
    ∀ i, i < rows.length → (rows ++ [t])[i]? = rows[i]? := by
  refine ⟨?_, by simp, ?_, fun i hi => List.getElem?_append_left hi⟩
  · simp [updateRowCore, setRow, ht]
  · rw [List.getElem?_append_right (Nat.le_refl _)]
    simp

theorem updateRow_append_witness :
    (['b'] : Line) ≠ [] ∧
    updateRowCore [['a']] none ['b'] = some [['a'], ['b']] :=
  ⟨by decide, (updateRow_append [['a']] ['b'] (by decide)).1⟩

/-- C1 fails as stated: at a row index exactly equal to the line count the
guard `rows.length < row` does not fire, so the call appends and writes.
Concretely, on the one-line document `"a"` with row index `1` and text
`"b"`, `updateRow` invokes `vault.modify` with `"a\nb"`, changing the
document. -/
theorem updateRow_at_length_writes :
    1 ≥ (splitLines ['a']).length ∧
    (updateRowEff (fun _ => ['a']) 0 (some 1) ['b']).2 =
      [VaultEvent.read 0, VaultEvent.modifyEv 0 ['a', '\n', 'b']] ∧
    (updateRowEff (fun _ => ['a']) 0 (some 1) ['b']).1 0 = ['a', '\n', 'b'] ∧
    (['a', '\n', 'b'] : List Char) ≠ ['a'] := by
  refine ⟨by decide, rfl, rfl, by decide⟩

theorem updateRowCore_stale (rows : List Line) (r : Nat) (t : Line)
    (hr : rows.length < r) : updateRowCore rows (some r) t = none := by
  simp [updateRowCore, hr]

theorem updateRowEff_stale (store : Store) (h r : Nat) (t : Line)
    (hr : (splitLines (store h)).length < r) :
    updateRowEff store h (some r) t = (store, [VaultEvent.read h]) := by
  simp [updateRowEff, updateRowCore_stale _ _ _ hr]

/-- C1 (amended): for a row index strictly greater than the line count,
`updateRow` aborts silently: the store is unchanged and the only store
operation performed is the single read — `vault.modify` is never invoked. -/
theorem updateRow_out_of_range_noop (store : Store) (h r : Nat) (t : Line)
    (hr : (splitLines (store h)).length < r) :
    updateRowEff store h (some r) t = (store, [VaultEvent.read h]) ∧
    updateRowCore (splitLines (store h)) (some r) t = none :=
  ⟨updateRowEff_stale store h r t hr, updateRowCore_stale _ _ _ hr⟩

theorem updateRow_out_of_range_noop_witness :
    (splitLines ['a']).length < 2 ∧
    updateRowEff (fun _ => ['a']) 0 (some 2) ['b'] =
      ((fun _ => ['a']), [VaultEvent.read 0]) ∧
    updateRowCore (splitLines ['a']) (some 2) ['b'] = none :=
  ⟨by decide,
    (updateRow_out_of_range_noop (fun _ => ['a']) 0 2 ['b'] (by decide)).1,
    (updateRow_out_of_range_noop (fun _ => ['a']) 0 2 ['b'] (by decide)).2⟩

theorem splitLines_ne_nil (file : List Char) : splitLines file ≠ [] :=
  List.splitOnP_ne_nil _ file

theorem sep_not_mem_splitOn {α : Type} [DecidableEq α] (x : α) :
    ∀ (xs : List α), ∀ l ∈ xs.splitOn x, x ∉ l := by
  intro xs
  induction xs with
  | nil =>
      intro l hl
      simp only [List.splitOn_nil, List.mem_singleton] at hl
      simp [hl]
  | cons a as ih =>
      intro l hl
      rw [List.splitOn, List.splitOnP_cons] at hl
      by_cases hax : a = x
      · rw [if_pos (by simp [hax])] at hl
        rcases List.mem_cons.mp hl with h | h
        · simp [h]
        · exact ih l h
      · rw [if_neg (by simp [hax])] at hl
        cases hsp : as.splitOnP (· == x) with
        | nil => exact absurd hsp (List.splitOnP_ne_nil _ as)
        | cons hd tl =>
            rw [hsp] at hl
            simp only [List.modifyHead_cons] at hl
            rcases List.mem_cons.mp hl with h | h
            · subst h
              intro hmem
              rcases List.mem_cons.mp hmem with h1 | h1
              · exact hax h1.symm
              · exact ih hd (by rw [List.splitOn, hsp]; exact List.mem_cons_self _ _) h1
            · exact ih l (by rw [List.splitOn, hsp]; exact List.mem_cons_of_mem _ h)

theorem splitLines_joinLines (rows : List Line) (hne : rows ≠ [])
    (hnl : ∀ l ∈ rows, '\n' ∉ l) : splitLines (joinLines rows) = rows :=
  List.splitOn_intercalate rows '\n' hnl hne

theorem setRow_length (rows : List Line) (r : Nat) (t : Line)
    (hr : r ≤ rows.length) : r < (setRow rows r t).length := by
  unfold setRow
  split
  · simpa using (by assumption : r < rows.length)
  · simp only [List.length_append, List.length_singleton]
    omega

theorem setRow_ne_nil {rows : List Line} {r : Nat} {t : Line}
    (h : rows ≠ []) : setRow rows r t ≠ [] := by
  unfold setRow
  split
  · simpa using fun hc => h (List.eq_nil_of_length_eq_zero (by simpa using congrArg List.length hc))
  · simp

theorem setRow_mem {rows : List Line} {r : Nat} {t l : Line}
    (hl : l ∈ setRow rows r t) : l ∈ rows ∨ l = t := by
  unfold setRow at hl
  split at hl
  · exact List.mem_or_eq_of_mem_set hl
  · rcases List.mem_append.mp hl with h | h
    · exact Or.inl h
    · exact Or.inr (List.mem_singleton.mp h)

theorem setRow_set_self (rows : List Line) (r : Nat) (t : Line)
    (hr : r ≤ rows.length) : (setRow rows r t).set r t = setRow rows r t := by
  unfold setRow
  split
  · rw [List.set_set]
  · have hre : r = rows.length := Nat.le_antisymm hr (Nat.not_lt.mp (by assumption))
    subst hre
    rw [List.set_append_right _ _ (Nat.le_refl _)]
    simp

theorem setRow_idem (rows : List Line) (r : Nat) (t : Line)
    (hr : r ≤ rows.length) :
    setRow (setRow rows r t) r t = setRow rows r t := by
  have hlt : r < (setRow rows r t).length := setRow_length rows r t hr
  conv_lhs => rw [setRow]
  rw [if_pos hlt]
  exact setRow_set_self rows r t hr

/-- C9 fails as stated: when the replacement text contains a newline, the
first write embeds it into the document content, the second call's fresh
read re-splits it into two lines, and the second replacement duplicates
material.  Concretely, on document `"a"` at row 0 with text `"b\nc"`, one
application writes `"b\nc"` but a second application writes `"b\nc\nc"`. -/
theorem updateRow_not_idempotent_newline :
    applyUpdateRow ['a'] (some 0) ['b', '\n', 'c'] = ['b', '\n', 'c'] ∧
    applyUpdateRow (applyUpdateRow ['a'] (some 0) ['b', '\n', 'c'])
        (some 0) ['b', '\n', 'c'] = ['b', '\n', 'c', '\n', 'c'] ∧
    (['b', '\n', 'c'] : Line) ≠ [] ∧
    (['b', '\n', 'c', '\n', 'c'] : List Char) ≠ ['b', '\n', 'c'] := by
  refine ⟨by decide, by decide, by decide, by decide⟩

/-- C9 (amended): applying the same non-delete `updateRow(D, r, text)` twice
in succession yields the same document as applying it once, provided the
replacement text contains no newline character (as every text produced by
serialising a task line does). -/
theorem updateRow_nondelete_idempotent (file : List Char) (r : Nat) (t : Line)
    (ht : t ≠ []) (hnl : '\n' ∉ t) :
    applyUpdateRow (applyUpdateRow file (some r) t) (some r) t =
      applyUpdateRow file (some r) t := by
  by_cases hr : (splitLines file).length < r
  · have h1 : updateRow file (some r) t = none := by
      simp [updateRow, updateRowCore, hr]
    simp [applyUpdateRow, h1]
  · have hr2 : r ≤ (splitLines file).length := Nat.not_lt.mp hr
    have h1 : updateRow file (some r) t =
        some (joinLines (setRow (splitLines file) r t)) := by
      simp [updateRow, updateRowCore, hr, ht]
    have hne2 : setRow (splitLines file) r t ≠ [] :=
      setRow_ne_nil (splitLines_ne_nil file)
    have hnl2 : ∀ l ∈ setRow (splitLines file) r t, '\n' ∉ l := by
      intro l hl
      rcases setRow_mem hl with h | h
      · exact sep_not_mem_splitOn '\n' file l h
      · simpa [h] using hnl
    have hsplit : splitLines (joinLines (setRow (splitLines file) r t)) =
        setRow (splitLines file) r t := splitLines_joinLines _ hne2 hnl2
    have hlt : r < (setRow (splitLines file) r t).length :=
      setRow_length _ _ _ hr2
    have hcore2 : updateRowCore (setRow (splitLines file) r t) (some r) t =
        some (setRow (splitLines file) r t) := by
      simp only [updateRowCore, Option.getD_some]
      rw [if_neg (Nat.lt_asymm hlt), if_neg ht, setRow_idem _ _ _ hr2]
    have h2 : updateRow (joinLines (setRow (splitLines file) r t)) (some r) t =
        some (joinLines (setRow (splitLines file) r t)) := by
      rw [updateRow, hsplit, hcore2]
      rfl
    simp [applyUpdateRow, h1, h2]

theorem updateRow_nondelete_idempotent_witness :
    (['b'] : Line) ≠ [] ∧ '\n' ∉ (['b'] : Line) ∧
    applyUpdateRow (applyUpdateRow ['a'] (some 0) ['b']) (some 0) ['b'] =
      applyUpdateRow ['a'] (some 0) ['b'] :=
  ⟨by decide, by decide,
    updateRow_nondelete_idempotent ['a'] 0 ['b'] (by decide) (by decide)⟩

/-- The metadata record: a task's physical location, document handle plus
zero-based row index. -/
structure Metadata where
  fileHandle : Nat
  rowIndex : Nat

/-- Modelled from the spec: the `Task` class (its file `task.ts`, holding
`serialise`, `archive` and `delete`) is not under `src/`.  Per the data
model, a task carries a column tag, a completion flag and free-form
content; the archive and delete transitions are modelled as flags that the
transitions set. -/
structure Task where
  column : String
  done : Bool
  content : String
  archived : Bool
  deleted : Bool

/-- Modelled from the spec: serialisation emits the checklist line — open or
completed marker, content, trailing column tag — and the empty string after
the delete transition (the delete signal). -/
def Task.serialise (t : Task) : Line :=
  if t.deleted then []
  else ("- [" ++ (if t.done then "x" else " ") ++ "] "
        ++ t.content ++ " #" ++ t.column).data

/-- Modelled from the spec: the archive transition, a column/flag change
signalling the archived state. -/
def Task.archive (t : Task) : Task := { t with archived := true }

/-- Modelled from the spec: the delete transition, which makes `serialise`
emit the empty string. -/
def Task.delete (t : Task) : Task := { t with deleted := true }

/-- The dispatcher's two identity-keyed side tables, `tasksByTaskId` and
`metadataByTaskId`. -/
structure BoardState where
  tasks : String → Option Task
  meta : String → Option Metadata

/-- Embeds `updateRowWithTask`: look up metadata and task by id, return
with no effect if either is missing, otherwise mutate the task in place
(the map now holds the mutated object), serialise it and run `updateRow`
at the recorded location.  The result is the new board state, the new
store, and the trace of store operations. -/
def updateRowWithTask (bs : BoardState) (store : Store) (id : String)
    (updater : Task → Task) : BoardState × Store × List VaultEvent :=
  match bs.meta id, bs.tasks id with
  | some m, some t =>
      let t2 := updater t
      let bs2 : BoardState :=
        { bs with tasks := fun k => if k = id then some t2 else bs.tasks k }
      let r := updateRowEff store m.fileHandle (some m.rowIndex) t2.serialise
      (bs2, r.1, r.2)
  | _, _ => (bs, store, [])

/-- Embeds `changeColumn`: set the task's column tag and rewrite its line. -/
def changeColumn (bs : BoardState) (store : Store) (id : String)
    (column : String) : BoardState × Store × List VaultEvent :=
  updateRowWithTask bs store id (fun t => { t with column := column })

/-- Embeds `markDone`: set the completion flag and rewrite the line. -/
def markDone (bs : BoardState) (store : Store) (id : String) :
    BoardState × Store × List VaultEvent :=
  updateRowWithTask bs store id (fun t => { t with done := true })

/-- Embeds `updateContent`: replace the free-form content and rewrite the
line. -/
def updateContent (bs : BoardState) (store : Store) (id : String)
    (content : String) : BoardState × Store × List VaultEvent :=
  updateRowWithTask bs store id (fun t => { t with content := content })

/-- Embeds `deleteTask`: apply the delete transition and rewrite, which per
the delete signal removes the line. -/
def deleteTask (bs : BoardState) (store : Store) (id : String) :
    BoardState × Store × List VaultEvent :=
  updateRowWithTask bs store id Task.delete

/-- Embeds `archiveTasks`: apply the archive transition to each id in
order, sequentially, threading the board state and store through. -/
def archiveTasks (bs : BoardState) (store : Store) :
    List String → BoardState × Store × List VaultEvent
  | [] => (bs, store, [])
  | id :: rest =>
      let r1 := updateRowWithTask bs store id Task.archive
      let r2 := archiveTasks r1.1 r1.2.1 rest
      (r2.1, r2.2.1, r1.2.2 ++ r2.2.2)

theorem updateRowWithTask_missing_noop (bs : BoardState) (store : Store)
    (id : String) (updater : Task → Task)
    (h : bs.meta id = none ∨ bs.tasks id = none) :
    updateRowWithTask bs store id updater = (bs, store, []) := by
  unfold updateRowWithTask
  rcases hm : bs.meta id with _ | m
  · rfl
  · rcases ht : bs.tasks id with _ | t
    · rfl
    · rcases h with h | h
      · rw [hm] at h; cases h
      · rw [ht] at h; cases h

/-- C5: every line-edit dispatcher operation is a silent no-op when the
task map or the metadata map has no entry for the id: the board state is
returned unchanged (no task mutated), the store is unchanged, and the
event trace is empty (no read, no write).  An id missing from the maps is
likewise skipped by `archiveTasks` with no effect on the rest of the
batch. -/
theorem dispatcher_missing_id_noop (bs : BoardState) (store : Store)
    (id : String) (h : bs.meta id = none ∨ bs.tasks id = none) :
    (∀ column, changeColumn bs store id column = (bs, store, [])) ∧
    markDone bs store id = (bs, store, []) ∧
    (∀ content, updateContent bs store id content = (bs, store, [])) ∧
    deleteTask bs store id = (bs, store, []) ∧
    (∀ rest, archiveTasks bs store (id :: rest) = archiveTasks bs store rest) := by
  have hu : ∀ u, updateRowWithTask bs store id u = (bs, store, []) :=
    fun u => updateRowWithTask_missing_noop bs store id u h
  refine ⟨fun column => hu _, hu _, fun content => hu _, hu _, fun rest => ?_⟩
  show (let r1 := updateRowWithTask bs store id Task.archive
        let r2 := archiveTasks r1.1 r1.2.1 rest
        (r2.1, r2.2.1, r1.2.2 ++ r2.2.2)) = archiveTasks bs store rest
  rw [hu Task.archive]
  simp

/-- An empty board: both side tables hold no entries. -/
def emptyBoard : BoardState := ⟨fun _ => none, fun _ => none⟩

theorem dispatcher_missing_id_noop_witness :
    (emptyBoard.meta "t1" = none ∨ emptyBoard.tasks "t1" = none) ∧
    changeColumn emptyBoard (fun _ => ['a']) "t1" "doing" =
      (emptyBoard, (fun _ => ['a']), []) :=
  ⟨Or.inl rfl,
    (dispatcher_missing_id_noop emptyBoard (fun _ => ['a']) "t1" (Or.inl rfl)).1 "doing"⟩

/-- C8: the in-memory task mutation happens before `updateRow`'s
stale-position guard runs, so when the guard aborts (the recorded row index
strictly exceeds the document's line count) the task map already holds the
mutated task while the document store is untouched and only a read was
performed: in-memory and on-disk state diverge. -/
theorem updateRowWithTask_stale_keeps_mutation (bs : BoardState)
    (store : Store) (id : String) (updater : Task → Task)
    (m : Metadata) (t : Task)
    (hm : bs.meta id = some m) (ht : bs.tasks id = some t)
    (hstale : (splitLines (store m.fileHandle)).length < m.rowIndex) :
    updateRowWithTask bs store id updater =
      ({ bs with tasks := fun k => if k = id then some (updater t) else bs.tasks k },
       store, [VaultEvent.read m.fileHandle]) := by
  unfold updateRowWithTask
  rw [hm, ht]
  have heff := updateRowEff_stale store m.fileHandle m.rowIndex
    (updater t).serialise hstale
  simp only [heff]

/-- A board holding one task whose metadata points past the end of its
one-line document: row index 5 in a document with a single line. -/
def staleBoard : BoardState :=
  ⟨fun k => if k = "t1" then some ⟨"todo", false, "buy milk", false, false⟩ else none,
   fun k => if k = "t1" then some ⟨0, 5⟩ else none⟩

theorem updateRowWithTask_stale_keeps_mutation_witness :
    staleBoard.meta "t1" = some ⟨0, 5⟩ ∧
    staleBoard.tasks "t1" = some ⟨"todo", false, "buy milk", false, false⟩ ∧
    (splitLines ((fun _ => ['a'] : Store) 0)).length < 5 ∧
    updateRowWithTask staleBoard (fun _ => ['a']) "t1" Task.delete =
      ({ staleBoard with
          tasks := fun k => if k = "t1"
            then some (Task.delete ⟨"todo", false, "buy milk", false, false⟩)
            else staleBoard.tasks k },
       (fun _ => ['a']), [VaultEvent.read 0]) :=
  ⟨rfl, rfl, by decide,
    updateRowWithTask_stale_keeps_mutation staleBoard (fun _ => ['a']) "t1"
      Task.delete ⟨0, 5⟩ ⟨"todo", false, "buy milk", false, false⟩ rfl rfl (by decide)⟩

/-- Embeds the JS `endsWith` used by `addNew`, on the character contents of
the strings: the final characters of `p` equal `s`. -/
def endsWithCh (p s : String) : Bool :=
  p.data.drop (p.data.length - s.data.length) == s.data

/-- Embeds the extension step of `addNew`'s configured-default-path branch:
append ".md" unless the resolved path already ends with "/", "\" or ".md". -/
def addMdIfNeeded (fullPath : String) : String :=
  if !endsWithCh fullPath "/" && !endsWithCh fullPath "\\"
     && !endsWithCh fullPath ".md"
  then fullPath ++ ".md" else fullPath

/-- Follows the claim's words, for comparison with `addMdIfNeeded`: a path
"carries an extension" when its final path segment contains a dot. -/
def specHasExtension (p : String) : Bool :=
  ((p.data.splitOn '/').getLastD []).contains '.'

/-- C6 fails as stated: the code appends ".md" unless the path already ends
in ".md" — it does not test whether the path carries an extension in
general.  The resolved path "tasks/inbox.txt" already carries an extension
(its final segment contains a dot), so per the claim it should be left
unchanged, yet the code appends and yields "tasks/inbox.txt.md". -/
theorem addMd_appends_despite_extension :
    specHasExtension "tasks/inbox.txt" = true ∧
    addMdIfNeeded "tasks/inbox.txt" = "tasks/inbox.txt.md" ∧
    ("tasks/inbox.txt.md" : String) ≠ "tasks/inbox.txt" := by
  refine ⟨by decide, by decide, by decide⟩

/-- C6 (amended): the default document extension ".md" is appended to the
resolved path if and only if the path does not end with a path separator
("/" or "\") and does not already end with ".md"; a path already ending in
".md" is left unchanged. -/
theorem addMd_extension_iff (p : String) :
    (addMdIfNeeded p = p ++ ".md" ↔
      endsWithCh p "/" = false ∧ endsWithCh p "\\" = false ∧
        endsWithCh p ".md" = false) ∧
    (endsWithCh p ".md" = true → addMdIfNeeded p = p) := by
  have hne : p ≠ p ++ ".md" := by
    intro hcontra
    have hlen := congrArg String.length hcontra
    rw [String.length_append] at hlen
    have h3 : (".md" : String).length = 3 := rfl
    omega
  unfold addMdIfNeeded
  cases h1 : endsWithCh p "/" <;> cases h2 : endsWithCh p "\\" <;>
    cases h3 : endsWithCh p ".md" <;> simp [h1, h2, h3, hne]

theorem addMd_extension_iff_witness :
    addMdIfNeeded "projects/tasks/inbox" = "projects/tasks/inbox" ++ ".md" :=
  (addMd_extension_iff "projects/tasks/inbox").1.mpr
    ⟨by decide, by decide, by decide⟩

/-- Embeds `fullPath.lastIndexOf("/")`: the index of the rightmost slash. -/
def lastSlash : List Char → Option Nat
  | [] => none
  | c :: rest =>
      match lastSlash rest with
      | some i => some (i + 1)
      | none => if c = '/' then some 0 else none

/-- Embeds `fullPath.substring(0, fullPath.lastIndexOf("/"))`: the folder
part of the resolved path, empty when there is no slash (JS `substring`
clamps the `-1` of a failed `lastIndexOf` to `0`). -/
def folderPathOf (p : String) : String :=
  match lastSlash p.data with
  | none => ""
  | some i => String.mk (p.data.take i)

/-- Results of the document-store calls that `addNew`'s default branch can
perform, each possibly failing with a store-level error of type `ε`.
`readRes` and `modifyRes` are the store operations performed by the final
appending `updateRow` call; `isTFile` is whether the resolved path yields a
markdown file handle. -/
structure VaultE (ε : Type) where
  folderExistsRes : Except ε Bool
  createFolderRes : Except ε Unit
  fileExistsRes : Except ε Bool
  createRes : Except ε Unit
  isTFile : Bool
  readRes : Except ε (List Char)
  modifyRes : List Char → Except ε Unit

/-- Embeds `updateRow` over a fallible store: the read is awaited and its
failure is returned as the call's failure; the stale-position guard may
abort with no write; otherwise the modify result is awaited.  No failure is
caught anywhere in the body. -/
def updateRowE {ε : Type} (readRes : Except ε (List Char))
    (modifyRes : List Char → Except ε Unit) (row : Option Nat)
    (newText : Line) : Except ε Unit :=
  match readRes with
  | Except.error e => Except.error e
  | Except.ok file =>
      match updateRow file row newText with
      | none => Except.ok ()
      | some w => modifyRes w

/-- Embeds `updateRowWithTask` over a fallible store, with the read and
modify operations indexed by file handle; the dispatcher awaits its
`updateRow` call, so that call's failure is the operation's failure. -/
def updateRowWithTaskE {ε : Type} (bs : BoardState)
    (readE : Nat → Except ε (List Char))
    (modifyE : Nat → List Char → Except ε Unit)
    (id : String) (updater : Task → Task) : Except ε Unit :=
  match bs.meta id, bs.tasks id with
  | some m, some t =>
      updateRowE (readE m.fileHandle) (modifyE m.fileHandle)
        (some m.rowIndex) (updater t).serialise
  | _, _ => Except.ok ()

/-- Embeds the store interactions of `addNew`'s configured-default-path
branch: when the folder part of the path is nonempty, await the folder
existence test and maybe await folder creation; await the document
existence test and maybe await document creation; then, when the path
resolves to a markdown file handle, fire the appending `updateRow` call
without awaiting it and return.  The first component is the outcome
`addNew` itself reports to its caller; the second is the outcome of the
un-awaited append (`none` when that call was never launched, which
includes the fallthrough to the interactive file picker). -/
def addNewDefault {ε : Type} (v : VaultE ε) (fullPath : String)
    (line : Line) : Except ε Unit × Option (Except ε Unit) :=
  let append : Except ε Unit × Option (Except ε Unit) :=
    if v.isTFile then
      (Except.ok (), some (updateRowE v.readRes v.modifyRes none line))
    else (Except.ok (), none)
  let ensureFile : Except ε Unit × Option (Except ε Unit) :=
    match v.fileExistsRes with
    | Except.error e => (Except.error e, none)
    | Except.ok true => append
    | Except.ok false =>
        match v.createRes with
        | Except.error e => (Except.error e, none)
        | Except.ok _ => append
  if folderPathOf fullPath = "" then ensureFile
  else
    match v.folderExistsRes with
    | Except.error e => (Except.error e, none)
    | Except.ok true => ensureFile
    | Except.ok false =>
        match v.createFolderRes with
        | Except.error e => (Except.error e, none)
        | Except.ok _ => ensureFile

/-- A store whose read fails with error 7 while every other operation
succeeds, the folder and the document both existing. -/
def vReadFails : VaultE Nat :=
  { folderExistsRes := Except.ok true, createFolderRes := Except.ok (),
    fileExistsRes := Except.ok true, createRes := Except.ok (),
    isTFile := true, readRes := Except.error 7,
    modifyRes := fun _ => Except.ok () }

/-- C7 fails as stated: the appending `updateRow` call in `addNew`'s
configured-default-path branch is fired without awaiting it, so a read
failure during that append does not become a failure of `addNew`.  With
every other store call succeeding and the read failing with error 7, the
append's outcome is that error, yet `addNew` reports success to its
caller. -/
theorem addNew_append_failure_not_propagated :
    (addNewDefault vReadFails "tasks/inbox.md" ['-']).1 = Except.ok () ∧
    (addNewDefault vReadFails "tasks/inbox.md" ['-']).2 =
      some (Except.error 7) ∧
    (Except.ok () : Except Nat Unit) ≠ Except.error 7 := by
  refine ⟨rfl, rfl, fun h => Except.noConfusion h⟩

/-- C7 (amended): no store-level failure is caught in the core, and every
failure of an awaited store call propagates as a failure of the operation:
a failing read or (when a write is due) a failing modify fails `updateRow`
and hence the dispatcher line edits, and a failing folder-existence test,
folder creation, document-existence test or document creation fails
`addNew`.  Each `updateRow` call performs exactly one read and at most one
write, so nothing is retried.  The one exception is the appending
`updateRow` of `addNew`'s configured-default-path branch, which is not
awaited: its failure is confined to the background call and `addNew` still
reports success. -/
theorem storeFailure_propagation {ε : Type} (e : ε) :
    (∀ (modifyRes : List Char → Except ε Unit) (row : Option Nat) (t : Line),
        updateRowE (Except.error e) modifyRes row t = Except.error e) ∧
    (∀ (file : List Char) (modifyRes : List Char → Except ε Unit)
        (row : Option Nat) (t : Line) (w : List Char),
        updateRow file row t = some w → modifyRes w = Except.error e →
        updateRowE (Except.ok file) modifyRes row t = Except.error e) ∧
    (∀ (bs : BoardState) (readE : Nat → Except ε (List Char))
        (modifyE : Nat → List Char → Except ε Unit) (id : String)
        (updater : Task → Task) (m : Metadata) (t : Task),
        bs.meta id = some m → bs.tasks id = some t →
        readE m.fileHandle = Except.error e →
        updateRowWithTaskE bs readE modifyE id updater = Except.error e) ∧
    (∀ (v : VaultE ε) (p : String) (l : Line), folderPathOf p ≠ "" →
        v.folderExistsRes = Except.error e →
        (addNewDefault v p l).1 = Except.error e) ∧
    (∀ (v : VaultE ε) (p : String) (l : Line), folderPathOf p ≠ "" →
        v.folderExistsRes = Except.ok false →
        v.createFolderRes = Except.error e →
        (addNewDefault v p l).1 = Except.error e) ∧
    (∀ (v : VaultE ε) (p : String) (l : Line),
        (folderPathOf p = "" ∨ v.folderExistsRes = Except.ok true) →
        v.fileExistsRes = Except.error e →
        (addNewDefault v p l).1 = Except.error e) ∧
    (∀ (v : VaultE ε) (p : String) (l : Line),
        (folderPathOf p = "" ∨ v.folderExistsRes = Except.ok true) →
        v.fileExistsRes = Except.ok false → v.createRes = Except.error e →
        (addNewDefault v p l).1 = Except.error e) ∧
    (∀ (store : Store) (h : Nat) (row : Option Nat) (t : Line),
        (updateRowEff store h row t).2 = [VaultEvent.read h] ∨
        ∃ w, (updateRowEff store h row t).2 =
          [VaultEvent.read h, VaultEvent.modifyEv h w]) ∧
    (∀ (v : VaultE ε) (p : String) (l : Line),
        (folderPathOf p = "" ∨ v.folderExistsRes = Except.ok true) →
        v.fileExistsRes = Except.ok true → v.isTFile = true →
        v.readRes = Except.error e →
        (addNewDefault v p l).1 = Except.ok () ∧
        (addNewDefault v p l).2 = some (Except.error e)) := by
  refine ⟨fun _ _ _ => rfl, ?_, ?_, ?_, ?_, ?_, ?_, ?_, ?_⟩
  · intro file modifyRes row t w hw hm
    show (match updateRow file row t with
          | none => Except.ok ()
          | some w => modifyRes w) = Except.error e
    rw [hw]
    exact hm
  · intro bs readE modifyE id updater m t hm ht hread
    simp only [updateRowWithTaskE, hm, ht, hread, updateRowE]
  · intro v p l hfp hfold
    simp only [addNewDefault, if_neg hfp, hfold]
  · intro v p l hfp hfold hcreate
    simp only [addNewDefault, if_neg hfp, hfold, hcreate]
  · intro v p l hfp hfile
    rcases hfp with hfp | hfp
    · simp only [addNewDefault, if_pos hfp, hfile]
    · by_cases hfp2 : folderPathOf p = ""
      · simp only [addNewDefault, if_pos hfp2, hfile]
      · simp only [addNewDefault, if_neg hfp2, hfp, hfile]
  · intro v p l hfp hfile hcreate
    rcases hfp with hfp | hfp
    · simp only [addNewDefault, if_pos hfp, hfile, hcreate]
    · by_cases hfp2 : folderPathOf p = ""
      · simp only [addNewDefault, if_pos hfp2, hfile, hcreate]
      · simp only [addNewDefault, if_neg hfp2, hfp, hfile, hcreate]
  · intro store h row t
    cases hc : updateRowCore (splitLines (store h)) row t with
    | none => exact Or.inl (by simp [updateRowEff, hc])
    | some rows2 => exact Or.inr ⟨joinLines rows2, by simp [updateRowEff, hc]⟩
  · intro v p l hfp hfile htf hread
    rcases hfp with hfp | hfp
    · constructor <;>
        simp only [addNewDefault, if_pos hfp, hfile, htf, hread,
          updateRowE, if_true]
    · by_cases hfp2 : folderPathOf p = ""
      · constructor <;>
          simp only [addNewDefault, if_pos hfp2, hfile, htf, hread,
            updateRowE, if_true]
      · constructor <;>
          simp only [addNewDefault, if_neg hfp2, hfp, hfile, htf, hread,
            updateRowE, if_true]

/-- A store whose folder-existence test fails with error 3 while every
other operation succeeds. -/
def vFolderFails : VaultE Nat :=
  { folderExistsRes := Except.error 3, createFolderRes := Except.ok (),
    fileExistsRes := Except.ok true, createRes := Except.ok (),
    isTFile := true, readRes := Except.ok [],
    modifyRes := fun _ => Except.ok () }

theorem storeFailure_propagation_witness :
    folderPathOf "a/b" ≠ "" ∧
    (addNewDefault vFolderFails "a/b" []).1 = Except.error 3 :=
  ⟨by decide,
    (storeFailure_propagation 3).2.2.2.1 vFolderFails "a/b" [] (by decide) rfl⟩

end KanbanSync
